import Mathlib

/-!
# Verification of `src/Metal/generate_font_atlas.py`

A shallow embedding of the font-atlas generator.  Python integers are
modelled as `Int` (`//` is `Int.fdiv`, floor division), the external font
rasterizer (PIL) is modelled as an oracle `Raster` returning, for each
codepoint, either `none` (the glyph raised an exception while being measured
or drawn) or a `Glyph` (its horizontal bounding box and the set of pixels
`draw.text` paints relative to the text origin).  The atlas canvas is a
total pixel function `Int × Int → Nat`, zero-initialized like
`Image.new("L", ..., color=0)`.
-/

namespace FontAtlas

/-- The `next_power_of_2` helper of `generate_font_atlas` (lines 87-91):
`power = 1; while power < n: power *= 2; return power`.  The while loop is
embedded with explicit fuel; `next_power_of_2` supplies `n.toNat` steps,
which is enough because the loop doubles `power` starting from 1. -/
def next_power_of_2_go : Nat → Int → Int → Int
  | 0, _, power => power
  | fuel + 1, n, power => if power < n then next_power_of_2_go fuel n (power * 2) else power

/-- `next_power_of_2` from the source (lines 87-94). -/
def next_power_of_2 (n : Int) : Int :=
  next_power_of_2_go n.toNat n 1

/-- Modelled from the spec: "smallest power of two ≥ input; for input ≤ 1,
the result is 1".  `Nat.clog 2` is the ceiling base-2 logarithm, so
`2 ^ Nat.clog 2 m` is the least power of two ≥ `m`; the leastness facts are
proved in `smallestPow2Geq_le`, `smallestPow2Geq_pow`, `smallestPow2Geq_min`
and `smallestPow2Geq_of_le_one` below. -/
def smallestPow2Geq (n : Int) : Int :=
  2 ^ Nat.clog 2 n.toNat

/-- The character list built in lines 61-72: the ASCII range
`first_char..last_char` ascending, then (if requested) the box-drawing
block U+2500..U+257F ascending. -/
def charList (first_char last_char : Nat) (include_box_drawing : Bool) : List Nat :=
  List.range' first_char (last_char + 1 - first_char) ++
    (if include_box_drawing then List.range' 0x2500 0x80 else [])

/-- The result of `font.getbbox` / `draw.text` for one codepoint: the
horizontal bounding box `(bbox[0], bbox[2])` and the pixels painted by
`draw.text`, as offsets relative to the text origin passed to it. -/
structure Glyph where
  bboxLeft : Int
  bboxRight : Int
  ink : List (Int × Int)

/-- The external rasterizer: `none` models the glyph raising an exception
inside the `try` block (line 120), `some g` a successful measure-and-draw. -/
def Raster := Nat → Option Glyph

/-- The geometry a render pass needs: cell size, padding and the font
metrics `font.getmetrics()` returned (lines 54-58). -/
structure Config where
  cellW : Int
  cellH : Int
  pad : Int
  ascent : Int
  descent : Int

/-- The atlas canvas: grayscale value of each pixel. -/
def Atlas := Int × Int → Nat

/-- `padded_cell_width = cell_width + (padding * 2)` (line 80). -/
def paddedW (cfg : Config) : Int := cfg.cellW + cfg.pad * 2

/-- `padded_cell_height = cell_height + (padding * 2)` (line 81). -/
def paddedH (cfg : Config) : Int := cfg.cellH + cfg.pad * 2

/-- `cell_x = (i % 16) * padded_cell_width + padding` (lines 108-116). -/
def cellX (cfg : Config) (i : Nat) : Int :=
  ((i % 16 : Nat) : Int) * paddedW cfg + cfg.pad

/-- `cell_y = (i // 16) * padded_cell_height + padding` (lines 108-117). -/
def cellY (cfg : Config) (i : Nat) : Int :=
  ((i / 16 : Nat) : Int) * paddedH cfg + cfg.pad

/-- `vertical_padding = (cell_height - (ascent + descent)) // 2`, computed
from the shared font metrics (lines 126-127 and 150-151). -/
def verticalPadding (cfg : Config) : Int :=
  (cfg.cellH - (cfg.ascent + cfg.descent)).fdiv 2

/-- `draw.rectangle([x0, y0, x1, y1], fill=v)`: PIL paints every pixel with
`x0 ≤ x ≤ x1` and `y0 ≤ y ≤ y1` (both corners inclusive). -/
def paintRect (a : Atlas) (x0 y0 x1 y1 : Int) (v : Nat) : Atlas :=
  fun p => if x0 ≤ p.1 ∧ p.1 ≤ x1 ∧ y0 ≤ p.2 ∧ p.2 ≤ y1 then v else a p

/-- `draw.text((ox, oy), char, font=font, fill=255)`: paints the glyph's ink
pixels, translated by the text origin, at value 255. -/
def paintText (a : Atlas) (ox oy : Int) (ink : List (Int × Int)) : Atlas :=
  fun p => if (p.1 - ox, p.2 - oy) ∈ ink then 255 else a p

/-- The body of the per-character loop (lines 104-158) for one index `i` and
codepoint `code`: the underscore (codepoint 95, `chr(95) = "_"`) is drawn as
a manual rectangle (lines 121-139); every other codepoint is measured and
drawn through the font (lines 140-156), and an exception (`raster code =
none`) leaves the atlas untouched and logs the codepoint (lines 157-158).
Returns the new atlas and the logged warning, if any. -/
def drawCellStep (cfg : Config) (raster : Raster) (a : Atlas) (i code : Nat) :
    Atlas × Option Nat :=
  let cx := cellX cfg i
  let cy := cellY cfg i
  if code = 95 then
    let vp := verticalPadding cfg
    let underscore_y := cy + vp + cfg.ascent + 1 - 2
    (paintRect a cx underscore_y (cx + cfg.cellW - 1) (underscore_y + 2 - 1) 255, none)
  else
    match raster code with
    | none => (a, some code)
    | some g =>
      let offset_x := (cfg.cellW - (g.bboxRight - g.bboxLeft)).fdiv 2
      let text_y := cy + verticalPadding cfg - 2
      (paintText a (cx + offset_x) text_y g.ink, none)

/-- The `for i in range(char_count)` loop of lines 104-158, carrying the
atlas and the warnings logged so far. -/
def renderFrom (cfg : Config) (raster : Raster) :
    Nat → List Nat → Atlas → List Nat → Atlas × List Nat
  | _, [], a, log => (a, log)
  | i, code :: rest, a, log =>
    let st := drawCellStep cfg raster a i code
    renderFrom cfg raster (i + 1) rest st.1 (log ++ st.2.toList)

/-- The whole render pass: zero-initialized canvas, no warnings yet. -/
def renderAll (cfg : Config) (raster : Raster) (codes : List Nat) : Atlas × List Nat :=
  renderFrom cfg raster 0 codes (fun _ => 0) []

/-- Python's `str.replace` on character lists: non-overlapping occurrences of
`pat` are replaced by `rep` left to right.  The fuel argument only bounds the
recursion; `s.length` steps always suffice since each step consumes at least
one character of `s` (the `!pat.isEmpty` guard never fires for the one
pattern the program uses, `".png"`). -/
def replaceFuel : Nat → List Char → List Char → List Char → List Char
  | 0, s, _, _ => s
  | _ + 1, [], _, _ => []
  | fuel + 1, c :: rest, pat, rep =>
    if !pat.isEmpty && pat.isPrefixOf (c :: rest) then
      rep ++ replaceFuel fuel ((c :: rest).drop pat.length) pat rep
    else
      c :: replaceFuel fuel rest pat rep

/-- `output_path.replace(".png", "_metadata.h")` (line 165). -/
def pyReplace (s pat rep : String) : String :=
  String.mk (replaceFuel s.toList.length s.toList pat.toList rep.toList)

/-- The metadata header path derived from the output path (line 165). -/
def header_path_of (output_path : String) : String :=
  pyReplace output_path ".png" "_metadata.h"

/-- Whether `pat` occurs as a contiguous sublist of `s` (the situation in
which Python's `replace` rewrites something). -/
def hasOccurB : List Char → List Char → Bool
  | [], pat => pat.isPrefixOf []
  | c :: rest, pat => pat.isPrefixOf (c :: rest) || hasOccurB rest pat

/-- The `#define` constants written to the metadata header (lines 167-192). -/
structure MetaData where
  atlasWidth : Int
  atlasHeight : Int
  glyphWidth : Int
  glyphHeight : Int
  padding : Int
  paddedCellWidth : Int
  paddedCellHeight : Int
  firstChar : Nat
  lastChar : Nat
  glyphsPerRow : Nat
  charCount : Nat
  includesBoxDrawing : Bool

/-- Everything a successful run of `generate_font_atlas` computes and
writes: the codepoint list, the grid and canvas geometry, the rendered
canvas, the warnings printed, the metadata constants, and the two paths
written to disk. -/
structure GenData where
  codes : List Nat
  rows : Nat
  atlasW : Int
  atlasH : Int
  atlas : Atlas
  log : List Nat
  meta : MetaData
  outPath : String
  headerPath : String

/-- The result of `generate_font_atlas`: the returned boolean and, when the
font loaded, the run's data (`none` models the early `return False` of lines
47-52, before any file is created). -/
structure GenOut where
  success : Bool
  data : Option GenData

/-- The body of `generate_font_atlas` after the font loaded (lines 54-197),
with the font metrics `ascent`/`descent` as reported by the rasterizer. -/
def generateCore (ascent descent : Int) (_font_path output_path : String)
    (cell_width cell_height : Int) (_font_size : Option Int)
    (first_char last_char : Nat) (include_box_drawing : Bool) (padding : Int)
    (raster : Raster) : GenData :=
  let char_list := charList first_char last_char include_box_drawing
  let char_count := char_list.length
  let rows := (char_count + 16 - 1) / 16
  let padded_cell_width := cell_width + padding * 2
  let padded_cell_height := cell_height + padding * 2
  let atlas_width := next_power_of_2 (16 * padded_cell_width)
  let atlas_height := next_power_of_2 ((rows : Int) * padded_cell_height)
  let cfg : Config := ⟨cell_width, cell_height, padding, ascent, descent⟩
  let rendered := renderAll cfg raster char_list
  { codes := char_list
    rows := rows
    atlasW := atlas_width
    atlasH := atlas_height
    atlas := rendered.1
    log := rendered.2
    meta :=
      { atlasWidth := atlas_width
        atlasHeight := atlas_height
        glyphWidth := cell_width
        glyphHeight := cell_height
        padding := padding
        paddedCellWidth := padded_cell_width
        paddedCellHeight := padded_cell_height
        firstChar := first_char
        lastChar := last_char
        glyphsPerRow := 16
        charCount := char_count
        includesBoxDrawing := include_box_drawing }
    outPath := output_path
    headerPath := header_path_of output_path }

/-- `generate_font_atlas` (lines 14-197).  `font = none` models
`ImageFont.truetype` raising (lines 47-52): the error message is printed and
`False` returned before anything is rendered or written; otherwise the whole
body runs and `True` is returned (line 197) regardless of per-glyph
failures. -/
def generate_font_atlas (font : Option (Int × Int)) (font_path output_path : String)
    (cell_width cell_height : Int) (font_size : Option Int)
    (first_char last_char : Nat) (include_box_drawing : Bool) (padding : Int)
    (raster : Raster) : GenOut :=
  match font with
  | none => ⟨false, none⟩
  | some (ascent, descent) =>
    ⟨true, some (generateCore ascent descent font_path output_path cell_width cell_height
      font_size first_char last_char include_box_drawing padding raster)⟩

/-- What `main` produces: the exit code returned to `sys.exit`, whether the
usage message was printed, and the run output. -/
structure MainOut where
  exit : Nat
  usagePrinted : Bool
  gen : GenOut

/-- The files a run created: both paths on success, nothing otherwise. -/
def writtenFiles (o : GenOut) : List String :=
  match o.data with
  | none => []
  | some d => [d.outPath, d.headerPath]

/-- `main` (lines 200-246).  `arg1..arg6` are the six positional arguments
(present or absent), `fontExists` the result of `os.path.exists(font_path)`,
`font` the result of loading the font.  Note lines 237-245: `first_char` and
`last_char` are not passed (so the defaults 32 and 126 apply) and
`include_box_drawing` is passed as `True`. -/
def mainRun (arg1 arg2 : Option String) (arg3 arg4 arg5 arg6 : Option Int)
    (fontExists : Bool) (font : Option (Int × Int)) (raster : Raster) : MainOut :=
  let font_path := arg1.getD "../../Assets/font/petme/PetMe128.ttf"
  let output_path := arg2.getD "font_atlas.png"
  let cell_width := arg3.getD 16
  let cell_height := match arg4 with
    | some v => v
    | none => cell_width
  let font_size := arg5
  let padding := arg6.getD 1
  if fontExists then
    let out := generate_font_atlas font font_path output_path cell_width cell_height
      font_size 32 126 true padding raster
    ⟨if out.success then 0 else 1, false, out⟩
  else
    ⟨1, true, ⟨false, none⟩⟩

/-- `return 0 if success else 1` (line 246). -/
def mainExitOf (o : GenOut) : Nat :=
  if o.success then 0 else 1

/-! ## The power-of-two rounding loop -/

/-- One run of the while loop starting from `power = 2 ^ k` lands exactly on
`2 ^ max k (Nat.clog 2 n.toNat)`, given enough fuel. -/
lemma npot_go_pow (fuel : Nat) (n : Int) :
    ∀ k : Nat, Nat.clog 2 n.toNat ≤ k + fuel →
      next_power_of_2_go fuel n (2 ^ k) = 2 ^ max k (Nat.clog 2 n.toNat) := by
  induction fuel with
  | zero =>
    intro k h
    have hk : max k (Nat.clog 2 n.toNat) = k := Nat.max_eq_left (by omega)
    simp [next_power_of_2_go, hk]
  | succ fuel ih =>
    intro k h
    by_cases hlt : (2 : Int) ^ k < n
    · have hkc : k < Nat.clog 2 n.toNat := by
        by_contra hc
        push_neg at hc
        have h1 : n.toNat ≤ 2 ^ k := (Nat.le_pow_iff_clog_le (by norm_num)).mpr hc
        have h2 : n ≤ (2 : Int) ^ k := by
          calc n ≤ (n.toNat : Int) := Int.self_le_toNat n
            _ ≤ ((2 ^ k : Nat) : Int) := by exact_mod_cast h1
            _ = (2 : Int) ^ k := by push_cast; ring
        exact absurd hlt (not_lt.mpr h2)
      have hstep : (2 : Int) ^ k * 2 = 2 ^ (k + 1) := (pow_succ 2 k).symm
      rw [next_power_of_2_go, if_pos hlt, hstep, ih (k + 1) (by omega),
        Nat.max_eq_right hkc, Nat.max_eq_right (Nat.le_of_lt hkc)]
    · have hn : n ≤ (2 : Int) ^ k := not_lt.mp hlt
      have h1 : n.toNat ≤ 2 ^ k := by
        rw [Int.toNat_le]
        calc n ≤ (2 : Int) ^ k := hn
          _ = ((2 ^ k : Nat) : Int) := by push_cast; ring
      have hc : Nat.clog 2 n.toNat ≤ k := (Nat.le_pow_iff_clog_le (by norm_num)).mp h1
      rw [next_power_of_2_go, if_neg hlt, Nat.max_eq_left hc]

/-- The loop of lines 87-94 computes the least power of two ≥ its input:
in closed form, `2 ^ Nat.clog 2 n.toNat`. -/
lemma npot_eq (n : Int) : next_power_of_2 n = 2 ^ Nat.clog 2 n.toNat := by
  have hclog : Nat.clog 2 n.toNat ≤ n.toNat :=
    (Nat.le_pow_iff_clog_le (by norm_num)).mp (Nat.le_of_lt (Nat.lt_two_pow _))
  have h := npot_go_pow n.toNat n 0 (by omega)
  rw [pow_zero] at h
  rw [next_power_of_2, h, Nat.max_eq_right (Nat.zero_le _)]

/-- The source's rounding agrees with the spec's description. -/
lemma npot_eq_smallest (n : Int) : next_power_of_2 n = smallestPow2Geq n := by
  rw [npot_eq, smallestPow2Geq]

/-- `smallestPow2Geq n` is at least `n`. -/
lemma smallestPow2Geq_le (n : Int) : n ≤ smallestPow2Geq n := by
  rw [smallestPow2Geq]
  calc n ≤ (n.toNat : Int) := Int.self_le_toNat n
    _ ≤ ((2 ^ Nat.clog 2 n.toNat : Nat) : Int) := by
        exact_mod_cast Nat.le_pow_clog (by norm_num) _
    _ = 2 ^ Nat.clog 2 n.toNat := by push_cast; ring

/-- `smallestPow2Geq n` is a power of two. -/
lemma smallestPow2Geq_pow (n : Int) : ∃ k : Nat, smallestPow2Geq n = 2 ^ k :=
  ⟨Nat.clog 2 n.toNat, rfl⟩

/-- No smaller power of two is ≥ `n`: `smallestPow2Geq n` is below every
power of two that is ≥ `n`. -/
lemma smallestPow2Geq_min (n : Int) (k : Nat) (h : n ≤ 2 ^ k) :
    smallestPow2Geq n ≤ 2 ^ k := by
  rw [smallestPow2Geq]
  have h1 : n.toNat ≤ 2 ^ k := by
    rw [Int.toNat_le]
    calc n ≤ (2 : Int) ^ k := h
      _ = ((2 ^ k : Nat) : Int) := by push_cast; ring
  exact pow_le_pow_right₀ (by norm_num) ((Nat.le_pow_iff_clog_le (by norm_num)).mp h1)

/-- For input ≤ 1 the rounding gives 1. -/
lemma smallestPow2Geq_of_le_one (n : Int) (h : n ≤ 1) : smallestPow2Geq n = 1 := by
  have h1 : n.toNat ≤ 1 := by omega
  rw [smallestPow2Geq, Nat.clog_of_right_le_one h1, pow_zero]

/-- C1.  For every run, the emitted atlas width is the smallest power of two
≥ `16 * paddedCellWidth` and the emitted atlas height the smallest power of
two ≥ `rows * paddedCellHeight`, each axis rounded independently; the
rounding gives 1 for inputs ≤ 1; `rows = ceil(codepointCount / 16)`, which is
14 for the 95 ASCII + 128 box-drawing codepoints. -/
theorem C1_canvas_dimensions (ascent descent cell_width cell_height padding : Int)
    (font_path output_path : String) (font_size : Option Int)
    (first_char last_char : Nat) (include_box_drawing : Bool) (raster : Raster) :
    let d := generateCore ascent descent font_path output_path cell_width cell_height
      font_size first_char last_char include_box_drawing padding raster
    d.atlasW = smallestPow2Geq (16 * (cell_width + padding * 2))
      ∧ d.atlasH = smallestPow2Geq ((d.rows : Int) * (cell_height + padding * 2))
      ∧ d.rows = (d.codes.length + 16 - 1) / 16
      ∧ d.meta.atlasWidth = d.atlasW
      ∧ d.meta.atlasHeight = d.atlasH
      ∧ (∀ n : Int, n ≤ smallestPow2Geq n)
      ∧ (∀ n : Int, ∃ k : Nat, smallestPow2Geq n = 2 ^ k)
      ∧ (∀ (n : Int) (k : Nat), n ≤ 2 ^ k → smallestPow2Geq n ≤ 2 ^ k)
      ∧ (∀ n : Int, n ≤ 1 → smallestPow2Geq n = 1)
      ∧ (charList 32 126 true).length = 223
      ∧ (223 + 16 - 1) / 16 = 14 := by
  refine ⟨npot_eq_smallest _, npot_eq_smallest _, rfl, rfl, rfl,
    smallestPow2Geq_le, smallestPow2Geq_pow, smallestPow2Geq_min,
    smallestPow2Geq_of_le_one, ?_, by norm_num⟩
  simp [charList]

set_option maxRecDepth 8000 in
/-- C2.  The codepoint sequence is the ASCII range ascending followed (when
requested) by the box-drawing block ascending, and the atlas index of a
codepoint is its position in this concatenation; in particular with
`firstChar = 32`, `lastChar = 126` and box drawing on, index 0 holds
codepoint 32, index 94 codepoint 126 and index 95 codepoint 0x2500; the cell
of index `i` is `(row, col) = (i / 16, i % 16)`. -/
theorem C2_codepoint_indexing (first_char last_char : Nat) (include_box_drawing : Bool)
    (i : Nat) (cfg : Config) (j : Nat)
    (h : i < (charList first_char last_char include_box_drawing).length) :
    (charList first_char last_char include_box_drawing).getD i 0 =
        (if i < last_char + 1 - first_char then first_char + i
         else 0x2500 + (i - (last_char + 1 - first_char)))
      ∧ cellX cfg j = ((j % 16 : Nat) : Int) * (cfg.cellW + cfg.pad * 2) + cfg.pad
      ∧ cellY cfg j = ((j / 16 : Nat) : Int) * (cfg.cellH + cfg.pad * 2) + cfg.pad
      ∧ (charList 32 126 true).getD 0 0 = 32
      ∧ (charList 32 126 true).getD 94 0 = 126
      ∧ (charList 32 126 true).getD 95 0 = 0x2500 := by
  refine ⟨?_, rfl, rfl, by decide, by decide, by decide⟩
  simp only [charList] at h ⊢
  by_cases hi : i < last_char + 1 - first_char
  · rw [List.getD_append _ _ _ _ (by simpa using hi)]
    rw [List.getD_eq_getElem _ _ (by simpa using hi)]
    rw [List.getElem_range'_1]
    simp [hi]
  · have hbox : include_box_drawing = true := by
      cases include_box_drawing
      · exfalso
        simp at h
        omega
      · rfl
    subst hbox
    simp only [if_pos rfl, if_true] at h ⊢
    rw [List.getD_append_right _ _ _ _ (by simpa using hi)]
    have hlt : i - (List.range' first_char (last_char + 1 - first_char)).length <
        (List.range' 0x2500 0x80).length := by
      simp at h ⊢
      omega
    rw [List.getD_eq_getElem _ _ hlt]
    rw [List.getElem_range'_1]
    simp [hi]

set_option maxRecDepth 8000 in
/-- C2 witness: index 95 of the default run. -/
theorem C2_codepoint_indexing_witness :
    (charList 32 126 true).getD 95 0 =
        (if 95 < 126 + 1 - 32 then 32 + 95 else 0x2500 + (95 - (126 + 1 - 32)))
      ∧ cellX ⟨16, 16, 1, 12, 4⟩ 17 = ((17 % 16 : Nat) : Int) * (16 + 1 * 2) + 1
      ∧ cellY ⟨16, 16, 1, 12, 4⟩ 17 = ((17 / 16 : Nat) : Int) * (16 + 1 * 2) + 1
      ∧ (charList 32 126 true).getD 0 0 = 32
      ∧ (charList 32 126 true).getD 94 0 = 126
      ∧ (charList 32 126 true).getD 95 0 = 0x2500 :=
  C2_codepoint_indexing 32 126 true 95 ⟨16, 16, 1, 12, 4⟩ 17 (by decide)

/-- C3.  A non-underscore glyph is drawn at origin
`(cellX + offsetX, cellY + verticalPadding - 2)` with
`offsetX = floor((cellWidth - (bboxRight - bboxLeft)) / 2)` from the glyph's
own horizontal bounding box and
`verticalPadding = floor((cellHeight - (ascent + descent)) / 2)` from the
shared font metrics, so the vertical offset is the same for every glyph
(the drawn origin's y-part does not depend on the glyph or its bbox).  The
last four conjuncts certify that `Int.fdiv` by 2 is the floor: twice the
offset is ≤ the centered slack and misses it by less than 2. -/
theorem C3_glyph_placement (cfg : Config) (raster : Raster) (a : Atlas)
    (i code : Nat) (g : Glyph)
    (hcode : code ≠ 95) (hr : raster code = some g) :
    (drawCellStep cfg raster a i code).1 =
        paintText a
          (cellX cfg i + (cfg.cellW - (g.bboxRight - g.bboxLeft)).fdiv 2)
          (cellY cfg i + (cfg.cellH - (cfg.ascent + cfg.descent)).fdiv 2 - 2)
          g.ink
      ∧ (drawCellStep cfg raster a i code).2 = none
      ∧ 2 * ((cfg.cellW - (g.bboxRight - g.bboxLeft)).fdiv 2)
          ≤ cfg.cellW - (g.bboxRight - g.bboxLeft)
      ∧ cfg.cellW - (g.bboxRight - g.bboxLeft)
          < 2 * ((cfg.cellW - (g.bboxRight - g.bboxLeft)).fdiv 2) + 2
      ∧ 2 * ((cfg.cellH - (cfg.ascent + cfg.descent)).fdiv 2)
          ≤ cfg.cellH - (cfg.ascent + cfg.descent)
      ∧ cfg.cellH - (cfg.ascent + cfg.descent)
          < 2 * ((cfg.cellH - (cfg.ascent + cfg.descent)).fdiv 2) + 2 := by
  have hfl : ∀ m : Int, 2 * m.fdiv 2 ≤ m ∧ m < 2 * m.fdiv 2 + 2 := by
    intro m
    rw [Int.fdiv_eq_ediv _ (by norm_num)]
    omega
  refine ⟨?_, ?_, (hfl _).1, (hfl _).2, (hfl _).1, (hfl _).2⟩ <;>
    simp [drawCellStep, hcode, hr, verticalPadding]

/-- C3 witness: a concrete glyph at a concrete cell. -/
theorem C3_glyph_placement_witness :
    (drawCellStep ⟨16, 16, 1, 12, 4⟩ (fun _ => some ⟨1, 6, [(0, 0)]⟩)
          (fun _ => 0) 3 65).1 =
        paintText (fun _ => 0)
          (cellX ⟨16, 16, 1, 12, 4⟩ 3 + ((16 : Int) - ((6 : Int) - 1)).fdiv 2)
          (cellY ⟨16, 16, 1, 12, 4⟩ 3 + ((16 : Int) - ((12 : Int) + 4)).fdiv 2 - 2)
          [(0, 0)]
      ∧ (drawCellStep ⟨16, 16, 1, 12, 4⟩ (fun _ => some ⟨1, 6, [(0, 0)]⟩)
          (fun _ => 0) 3 65).2 = none
      ∧ 2 * (((16 : Int) - ((6 : Int) - 1)).fdiv 2) ≤ (16 : Int) - ((6 : Int) - 1)
      ∧ (16 : Int) - ((6 : Int) - 1) < 2 * (((16 : Int) - ((6 : Int) - 1)).fdiv 2) + 2
      ∧ 2 * (((16 : Int) - ((12 : Int) + 4)).fdiv 2) ≤ (16 : Int) - ((12 : Int) + 4)
      ∧ (16 : Int) - ((12 : Int) + 4)
          < 2 * (((16 : Int) - ((12 : Int) + 4)).fdiv 2) + 2 :=
  C3_glyph_placement ⟨16, 16, 1, 12, 4⟩ (fun _ => some ⟨1, 6, [(0, 0)]⟩)
    (fun _ => 0) 3 65 ⟨1, 6, [(0, 0)]⟩ (by decide) rfl

/-- C4.  The underscore cell (codepoint 95) is drawn as a manual filled
rectangle, not through the font: the result does not consult the rasterizer
at all (the `raster` argument is universally quantified), the bar spans
`cellX .. cellX + cellWidth - 1` horizontally, its top edge sits at
`cellY + verticalPadding + ascent - 1`, it is exactly the two pixel rows
`uy` and `uy + 1`, and it is painted at value 255. -/
theorem C4_underscore_rectangle (cfg : Config) (raster : Raster) (a : Atlas)
    (i : Nat) (x y : Int) :
    let cx := cellX cfg i
    let uy := cellY cfg i + verticalPadding cfg + cfg.ascent - 1
    (drawCellStep cfg raster a i 95).1 =
        paintRect a cx uy (cx + cfg.cellW - 1) (uy + 1) 255
      ∧ (drawCellStep cfg raster a i 95).1 (x, y) =
          (if cx ≤ x ∧ x ≤ cx + cfg.cellW - 1 ∧ uy ≤ y ∧ y ≤ uy + 1 then 255
           else a (x, y))
      ∧ ((uy ≤ y ∧ y ≤ uy + 1) ↔ (y = uy ∨ y = uy + 1))
      ∧ (drawCellStep cfg raster a i 95).2 = none := by
  intro cx uy
  have h1 : (drawCellStep cfg raster a i 95).1 =
      paintRect a cx uy (cx + cfg.cellW - 1) (uy + 1) 255 := by
    have e1 : cellY cfg i + verticalPadding cfg + cfg.ascent + 1 - 2 = uy := by
      simp only [uy]
      ring
    have e2 : cellY cfg i + verticalPadding cfg + cfg.ascent + 1 - 2 + 2 - 1 = uy + 1 := by
      simp only [uy]
      ring
    show paintRect a (cellX cfg i) (cellY cfg i + verticalPadding cfg + cfg.ascent + 1 - 2)
        (cellX cfg i + cfg.cellW - 1)
        (cellY cfg i + verticalPadding cfg + cfg.ascent + 1 - 2 + 2 - 1) 255 =
      paintRect a cx uy (cx + cfg.cellW - 1) (uy + 1) 255
    rw [e2, e1]
  refine ⟨h1, ?_, by omega, rfl⟩
  rw [h1]
  rfl

/-! ## Per-glyph failure isolation (C5) -/

/-- A rasterizer equal to `raster` except that codepoint `c` fails. -/
def failAt (raster : Raster) (c : Nat) : Raster :=
  fun x => if x = c then none else raster x

/-- Whether a pixel lies in the padded cell of atlas index `i`:
`col * paddedW ≤ x < (col+1) * paddedW`, `row * paddedH ≤ y < (row+1) * paddedH`
with `(row, col) = (i / 16, i % 16)`. -/
def inPaddedCell (cfg : Config) (i : Nat) (px : Int × Int) : Bool :=
  decide (((i % 16 : Nat) : Int) * paddedW cfg ≤ px.1
    ∧ px.1 < ((i % 16 : Nat) : Int) * paddedW cfg + paddedW cfg
    ∧ ((i / 16 : Nat) : Int) * paddedH cfg ≤ px.2
    ∧ px.2 < ((i / 16 : Nat) : Int) * paddedH cfg + paddedH cfg)

/-- The pixels `draw.text` would touch for glyph `g` at cell `i`: its ink
translated to the draw origin of lines 140-156. -/
def glyphFootprint (cfg : Config) (i : Nat) (g : Glyph) : List (Int × Int) :=
  g.ink.map (fun q =>
    (cellX cfg i + (cfg.cellW - (g.bboxRight - g.bboxLeft)).fdiv 2 + q.1,
     cellY cfg i + verticalPadding cfg - 2 + q.2))

/-- The pixels the manual underscore rectangle of cell `i` touches. -/
def rectFootprint (cfg : Config) (i : Nat) : List (Int × Int) :=
  (List.range cfg.cellW.toNat).flatMap (fun dx =>
    [(cellX cfg i + (dx : Int), cellY cfg i + verticalPadding cfg + cfg.ascent + 1 - 2),
     (cellX cfg i + (dx : Int), cellY cfg i + verticalPadding cfg + cfg.ascent + 1 - 2 + 1)])

/-- Decidable check that the draw step of `(i, code)` stays inside its own
padded cell (the spec's "cells never overlap" assumption). -/
def stepFitsB (cfg : Config) (raster : Raster) (i code : Nat) : Bool :=
  if code = 95 then (rectFootprint cfg i).all (fun px => inPaddedCell cfg i px)
  else
    match raster code with
    | none => true
    | some g => (glyphFootprint cfg i g).all (fun px => inPaddedCell cfg i px)

/-- `stepFitsB` along the whole render loop, starting at index `i`. -/
def allFitFrom (cfg : Config) (raster : Raster) : Nat → List Nat → Bool
  | _, [] => true
  | i, code :: rest => stepFitsB cfg raster i code && allFitFrom cfg raster (i + 1) rest

/-- The underscore branch of the loop body, as an equation. -/
lemma drawCellStep_underscore (cfg : Config) (raster : Raster) (a : Atlas) (i : Nat) :
    drawCellStep cfg raster a i 95 =
      (paintRect a (cellX cfg i)
        (cellY cfg i + verticalPadding cfg + cfg.ascent + 1 - 2)
        (cellX cfg i + cfg.cellW - 1)
        (cellY cfg i + verticalPadding cfg + cfg.ascent + 1 - 2 + 2 - 1) 255, none) :=
  rfl

/-- The failing branch of the loop body, as an equation. -/
lemma drawCellStep_fail (cfg : Config) (raster : Raster) (a : Atlas) (i code : Nat)
    (hc : code ≠ 95) (hr : raster code = none) :
    drawCellStep cfg raster a i code = (a, some code) := by
  simp [drawCellStep, hc, hr]

/-- The successful text branch of the loop body, as an equation. -/
lemma drawCellStep_draw (cfg : Config) (raster : Raster) (a : Atlas) (i code : Nat)
    (g : Glyph) (hc : code ≠ 95) (hr : raster code = some g) :
    drawCellStep cfg raster a i code =
      (paintText a (cellX cfg i + (cfg.cellW - (g.bboxRight - g.bboxLeft)).fdiv 2)
        (cellY cfg i + verticalPadding cfg - 2) g.ink, none) := by
  simp [drawCellStep, hc, hr]

/-- The step only reads the rasterizer at its own codepoint. -/
lemma drawCellStep_raster_congr (cfg : Config) (r r' : Raster) (a : Atlas)
    (i code : Nat) (h : r' code = r code) :
    drawCellStep cfg r' a i code = drawCellStep cfg r a i code := by
  by_cases hc : code = 95
  · subst hc
    rfl
  · cases hr : r code with
    | none => rw [drawCellStep_fail cfg r' a i code hc (h.trans hr),
        drawCellStep_fail cfg r a i code hc hr]
    | some g => rw [drawCellStep_draw cfg r' a i code g hc (h.trans hr),
        drawCellStep_draw cfg r a i code g hc hr]

/-- The new value at a pixel depends on the old atlas only at that pixel. -/
lemma drawCellStep_point_congr (cfg : Config) (raster : Raster) (a b : Atlas)
    (i code : Nat) (px : Int × Int) (hab : a px = b px) :
    (drawCellStep cfg raster a i code).1 px = (drawCellStep cfg raster b i code).1 px := by
  by_cases hc : code = 95
  · subst hc
    rw [drawCellStep_underscore, drawCellStep_underscore]
    simp only [paintRect]
    split <;> simp [hab]
  · cases hr : raster code with
    | none =>
      rw [drawCellStep_fail cfg raster a i code hc hr,
        drawCellStep_fail cfg raster b i code hc hr]
      exact hab
    | some g =>
      rw [drawCellStep_draw cfg raster a i code g hc hr,
        drawCellStep_draw cfg raster b i code g hc hr]
      simp only [paintText]
      split <;> simp [hab]

/-- If the step's draw stays inside its padded cell, pixels outside that
cell are untouched. -/
lemma step_outside (cfg : Config) (raster : Raster) (a : Atlas) (i code : Nat)
    (px : Int × Int) (hfit : stepFitsB cfg raster i code = true)
    (hout : inPaddedCell cfg i px = false) :
    (drawCellStep cfg raster a i code).1 px = a px := by
  by_cases hc : code = 95
  · subst hc
    rw [drawCellStep_underscore]
    simp only [paintRect]
    split
    next hcond =>
      exfalso
      obtain ⟨h1, h2, h3, h4⟩ := hcond
      have hmem : px ∈ rectFootprint cfg i := by
        refine List.mem_flatMap.mpr ⟨(px.1 - cellX cfg i).toNat, List.mem_range.mpr (by omega), ?_⟩
        have hx : cellX cfg i + ((px.1 - cellX cfg i).toNat : Int) = px.1 := by omega
        have hy : px.2 = cellY cfg i + verticalPadding cfg + cfg.ascent + 1 - 2
            ∨ px.2 = cellY cfg i + verticalPadding cfg + cfg.ascent + 1 - 2 + 1 := by omega
        obtain ⟨x, y⟩ := px
        rcases hy with hy | hy <;> simp_all
      have hall : inPaddedCell cfg i px = true := by
        have hfit' : (rectFootprint cfg i).all (fun q => inPaddedCell cfg i q) = true := by
          simpa [stepFitsB] using hfit
        exact List.all_eq_true.mp hfit' px hmem
      rw [hall] at hout
      exact absurd hout (by simp)
    next => rfl
  · cases hr : raster code with
    | none =>
      rw [drawCellStep_fail cfg raster a i code hc hr]
    | some g =>
      rw [drawCellStep_draw cfg raster a i code g hc hr]
      simp only [paintText]
      split
      next hcond =>
        exfalso
        have hmem : px ∈ glyphFootprint cfg i g := by
          refine List.mem_map.mpr ⟨_, hcond, ?_⟩
          obtain ⟨x, y⟩ := px
          simp
        have hall : inPaddedCell cfg i px = true := by
          have hfit' : (glyphFootprint cfg i g).all (fun q => inPaddedCell cfg i q) = true := by
            simpa [stepFitsB, hc, hr] using hfit
          exact List.all_eq_true.mp hfit' px hmem
        rw [hall] at hout
        exact absurd hout (by simp)
      next => rfl

/-- Two distinct blocks `[a*pw, (a+1)*pw)` of the same positive width are
disjoint. -/
lemma block_disjoint {pw x : Int} (hpw : 0 < pw) {a b : Nat} (hab : a ≠ b)
    (ha1 : (a : Int) * pw ≤ x) (ha2 : x < (a : Int) * pw + pw)
    (hb1 : (b : Int) * pw ≤ x) (hb2 : x < (b : Int) * pw + pw) : False := by
  rcases Nat.lt_or_ge a b with hlt | hge
  · have h1 : ((a : Int) + 1) ≤ (b : Int) := by exact_mod_cast hlt
    have h2 : ((a : Int) + 1) * pw ≤ (b : Int) * pw :=
      mul_le_mul_of_nonneg_right h1 (le_of_lt hpw)
    rw [add_mul, one_mul] at h2
    omega
  · have hlt : b < a := Nat.lt_of_le_of_ne hge (fun h => hab h.symm)
    have h1 : ((b : Int) + 1) ≤ (a : Int) := by exact_mod_cast hlt
    have h2 : ((b : Int) + 1) * pw ≤ (a : Int) * pw :=
      mul_le_mul_of_nonneg_right h1 (le_of_lt hpw)
    rw [add_mul, one_mul] at h2
    omega

/-- With positive cell dimensions and nonnegative padding, the padded cells
of two distinct atlas indices are disjoint pixel sets. -/
lemma cells_disjoint (cfg : Config) (hcw : 0 < cfg.cellW) (hch : 0 < cfg.cellH)
    (hp : 0 ≤ cfg.pad) {i j : Nat} (hij : i ≠ j) {px : Int × Int}
    (hi : inPaddedCell cfg i px = true) : inPaddedCell cfg j px = false := by
  have hpw : 0 < paddedW cfg := by
    rw [paddedW]
    omega
  have hph : 0 < paddedH cfg := by
    rw [paddedH]
    omega
  by_contra hj
  rw [Bool.not_eq_false] at hj
  simp only [inPaddedCell, decide_eq_true_eq] at hi hj
  obtain ⟨hi1, hi2, hi3, hi4⟩ := hi
  obtain ⟨hj1, hj2, hj3, hj4⟩ := hj
  have hcol : i % 16 = j % 16 := by
    by_contra hne
    exact block_disjoint hpw hne hi1 hi2 hj1 hj2
  have hrow : i / 16 = j / 16 := by
    by_contra hne
    exact block_disjoint hph hne hi3 hi4 hj3 hj4
  exact hij (by omega)

/-- Agreement outside the failed cell: running the loop with `raster` and
with `failAt raster c` from atlases that agree at a pixel outside the padded
cell of `ic` — the unique index holding codepoint `c` — keeps agreement at
that pixel. -/
lemma renderFrom_agree (cfg : Config) (raster : Raster) (c ic : Nat)
    (px : Int × Int) (hout : inPaddedCell cfg ic px = false) :
    ∀ (rest : List Nat) (i : Nat) (a b : Atlas) (log1 log2 : List Nat),
      a px = b px →
      allFitFrom cfg raster i rest = true →
      (∀ j, j < rest.length → rest.getD j 0 = c → i + j = ic) →
      (renderFrom cfg raster i rest a log1).1 px
        = (renderFrom cfg (failAt raster c) i rest b log2).1 px := by
  intro rest
  induction rest with
  | nil =>
    intro i a b log1 log2 hab _ _
    simpa [renderFrom] using hab
  | cons code rest ih =>
    intro i a b log1 log2 hab hfit hocc
    simp only [renderFrom]
    simp only [allFitFrom, Bool.and_eq_true] at hfit
    obtain ⟨hfit1, hfit2⟩ := hfit
    refine ih (i + 1) _ _ _ _ ?_ hfit2 ?_
    · by_cases hcc : code = c
      · subst hcc
        have hic : i = ic := by
          have := hocc 0 (by simp) (by simp)
          omega
        subst hic
        have h1 : (drawCellStep cfg raster a i code).1 px = a px :=
          step_outside cfg raster a i code px hfit1 hout
        have h2 : (drawCellStep cfg (failAt raster code) b i code).1 px = b px := by
          by_cases hc95 : code = 95
          · subst hc95
            have hfit1' : stepFitsB cfg (failAt raster 95) i 95 = true := by
              simpa [stepFitsB] using hfit1
            exact step_outside cfg (failAt raster 95) b i 95 px hfit1' hout
          · rw [drawCellStep_fail cfg (failAt raster code) b i code hc95 (by simp [failAt])]
        rw [h1, h2, hab]
      · have hsame : failAt raster c code = raster code := by
          simp [failAt, hcc]
        rw [drawCellStep_raster_congr cfg raster (failAt raster c) b i code hsame]
        exact drawCellStep_point_congr cfg raster a b i code px hab
    · intro j hj hj2
      have := hocc (j + 1) (by simpa using Nat.succ_lt_succ hj) (by simpa using hj2)
      omega

/-- Zero-preservation inside the failed cell: if the step at index `ic`
paints nothing (its codepoint fails or is skipped) and every other step
stays inside its own cell, a pixel of cell `ic` that starts at 0 stays 0. -/
lemma renderFrom_zero (cfg : Config) (r : Raster) (ic : Nat)
    (hcw : 0 < cfg.cellW) (hch : 0 < cfg.cellH) (hp : 0 ≤ cfg.pad)
    (px : Int × Int) (hin : inPaddedCell cfg ic px = true) :
    ∀ (rest : List Nat) (i : Nat) (a : Atlas) (log : List Nat),
      a px = 0 →
      allFitFrom cfg r i rest = true →
      (∀ j, j < rest.length → i + j = ic →
        rest.getD j 0 ≠ 95 ∧ r (rest.getD j 0) = none) →
      (renderFrom cfg r i rest a log).1 px = 0 := by
  intro rest
  induction rest with
  | nil =>
    intro i a log ha _ _
    simpa [renderFrom] using ha
  | cons code rest ih =>
    intro i a log ha hfit hskip
    simp only [renderFrom]
    simp only [allFitFrom, Bool.and_eq_true] at hfit
    obtain ⟨hfit1, hfit2⟩ := hfit
    refine ih (i + 1) _ _ ?_ hfit2 ?_
    · by_cases hic : i = ic
      · obtain ⟨hc95, hnone⟩ := hskip 0 (by simp) (by omega)
        simp only [List.getD_cons_zero] at hc95 hnone
        rw [drawCellStep_fail cfg r a i code hc95 hnone]
        exact ha
      · have hout : inPaddedCell cfg i px = false :=
          cells_disjoint cfg hcw hch hp (fun h => hic h.symm) hin
        rw [step_outside cfg r a i code px hfit1 hout]
        exact ha
    · intro j hj hj2
      have := hskip (j + 1) (by simpa using Nat.succ_lt_succ hj) (by omega)
      simpa using this

/-- Closed form of the warnings: exactly the non-underscore codepoints the
rasterizer failed on, in atlas order. -/
lemma renderFrom_log (cfg : Config) (r : Raster) :
    ∀ (rest : List Nat) (i : Nat) (a : Atlas) (log : List Nat),
      (renderFrom cfg r i rest a log).2
        = log ++ rest.filter (fun code => decide (code ≠ 95) && (r code).isNone) := by
  intro rest
  induction rest with
  | nil =>
    intro i a log
    simp [renderFrom]
  | cons code rest ih =>
    intro i a log
    simp only [renderFrom]
    rw [ih]
    by_cases hc : code = 95
    · subst hc
      rw [drawCellStep_underscore]
      simp [List.filter_cons]
    · cases hr : r code with
      | none =>
        rw [drawCellStep_fail cfg r a i code hc hr]
        simp [List.filter_cons, hc, hr]
      | some g =>
        rw [drawCellStep_draw cfg r a i code g hc hr]
        simp [List.filter_cons, hc, hr]

/-- If every draw of the unfailed run stays in its cell, so does every draw
of the run where codepoint `c` fails. -/
lemma allFitFrom_failAt (cfg : Config) (r : Raster) (c : Nat) :
    ∀ (rest : List Nat) (i : Nat), allFitFrom cfg r i rest = true →
      allFitFrom cfg (failAt r c) i rest = true := by
  intro rest
  induction rest with
  | nil =>
    intro i _
    rfl
  | cons code rest ih =>
    intro i h
    simp only [allFitFrom, Bool.and_eq_true] at h ⊢
    refine ⟨?_, ih (i + 1) h.2⟩
    by_cases h95 : code = 95
    · subst h95
      simpa [stepFitsB] using h.1
    · by_cases hcc : code = c
      · subst hcc
        simp [stepFitsB, h95, failAt]
      · have hsame : failAt r c code = r code := by
          simp [failAt, hcc]
        have h1 := h.1
        simp only [stepFitsB, if_neg h95] at h1 ⊢
        rw [hsame]
        exact h1

/-- C5.  A single codepoint's rasterization/draw failure does not abort the
run: `generate_font_atlas` still returns success (exit code 0), the failure
is logged (the warnings of the failing run are exactly `[c]` when the clean
run logged nothing), every pixel outside the failed glyph's padded cell has
exactly the value of the clean run, and every pixel of the failed cell keeps
the zero-initialized background.  `hidx` pins `ic` as the unique atlas index
holding codepoint `c`, and `hfit` is the spec's standing assumption that
every draw stays inside its own padded cell ("cells never overlap"). -/
theorem C5_failure_isolated
    (ascent descent cell_width cell_height padding : Int)
    (font_path output_path : String) (font_size : Option Int)
    (first_char last_char : Nat) (include_box_drawing : Bool)
    (raster : Raster) (c ic : Nat) (x y : Int)
    (hcw : 0 < cell_width) (hch : 0 < cell_height) (hp : 0 ≤ padding)
    (hc95 : c ≠ 95)
    (hidx : (List.range (charList first_char last_char include_box_drawing).length).filter
        (fun j => (charList first_char last_char include_box_drawing).getD j 0 == c) = [ic])
    (hcount : (charList first_char last_char include_box_drawing).count c = 1)
    (hfit : allFitFrom ⟨cell_width, cell_height, padding, ascent, descent⟩ raster 0
        (charList first_char last_char include_box_drawing) = true)
    (hnf : (generateCore ascent descent font_path output_path cell_width cell_height
        font_size first_char last_char include_box_drawing padding raster).log = []) :
    (generate_font_atlas (some (ascent, descent)) font_path output_path cell_width
        cell_height font_size first_char last_char include_box_drawing padding
        (failAt raster c)).success = true
    ∧ mainExitOf (generate_font_atlas (some (ascent, descent)) font_path output_path
        cell_width cell_height font_size first_char last_char include_box_drawing padding
        (failAt raster c)) = 0
    ∧ (generateCore ascent descent font_path output_path cell_width cell_height
        font_size first_char last_char include_box_drawing padding (failAt raster c)).log
        = [c]
    ∧ (inPaddedCell ⟨cell_width, cell_height, padding, ascent, descent⟩ ic (x, y) = false →
        (generateCore ascent descent font_path output_path cell_width cell_height
          font_size first_char last_char include_box_drawing padding (failAt raster c)).atlas
            (x, y)
          = (generateCore ascent descent font_path output_path cell_width cell_height
              font_size first_char last_char include_box_drawing padding raster).atlas (x, y))
    ∧ (inPaddedCell ⟨cell_width, cell_height, padding, ascent, descent⟩ ic (x, y) = true →
        (generateCore ascent descent font_path output_path cell_width cell_height
          font_size first_char last_char include_box_drawing padding (failAt raster c)).atlas
            (x, y) = 0) := by
  have hic_mem : ic ∈ (List.range (charList first_char last_char
      include_box_drawing).length).filter
      (fun j => (charList first_char last_char include_box_drawing).getD j 0 == c) := by
    rw [hidx]
    simp
  have hlen_ic : ic < (charList first_char last_char include_box_drawing).length := by
    have := (List.mem_filter.mp hic_mem).1
    simpa using this
  have hat : (charList first_char last_char include_box_drawing).getD ic 0 = c := by
    have := (List.mem_filter.mp hic_mem).2
    simpa using this
  have hocc : ∀ j, j < (charList first_char last_char include_box_drawing).length →
      (charList first_char last_char include_box_drawing).getD j 0 = c → 0 + j = ic := by
    intro j hj hjc
    have hjmem : j ∈ (List.range (charList first_char last_char
        include_box_drawing).length).filter
        (fun j => (charList first_char last_char include_box_drawing).getD j 0 == c) :=
      List.mem_filter.mpr ⟨List.mem_range.mpr hj, by simpa using hjc⟩
    rw [hidx] at hjmem
    simp at hjmem
    omega
  have hnf' : (charList first_char last_char include_box_drawing).filter
      (fun code => decide (code ≠ 95) && (raster code).isNone) = [] := by
    have h := hnf
    have hlog : (generateCore ascent descent font_path output_path cell_width cell_height
        font_size first_char last_char include_box_drawing padding raster).log
        = (renderFrom ⟨cell_width, cell_height, padding, ascent, descent⟩ raster 0
            (charList first_char last_char include_box_drawing) (fun _ => 0) []).2 := rfl
    rw [hlog, renderFrom_log] at h
    simpa using h
  refine ⟨rfl, rfl, ?_, ?_, ?_⟩
  · -- the failing run logs exactly [c]
    have hlog : (generateCore ascent descent font_path output_path cell_width cell_height
        font_size first_char last_char include_box_drawing padding (failAt raster c)).log
        = (renderFrom ⟨cell_width, cell_height, padding, ascent, descent⟩ (failAt raster c) 0
            (charList first_char last_char include_box_drawing) (fun _ => 0) []).2 := rfl
    rw [hlog, renderFrom_log]
    simp only [List.nil_append]
    have hcongr : (charList first_char last_char include_box_drawing).filter
        (fun code => decide (code ≠ 95) && ((failAt raster c) code).isNone)
        = (charList first_char last_char include_box_drawing).filter (fun code => code == c) := by
      apply List.filter_congr
      intro code hmem
      by_cases hcc : code = c
      · subst hcc
        simp [failAt, hc95]
      · have hsame : failAt raster c code = raster code := by
          simp [failAt, hcc]
        rw [hsame]
        have : ¬ ((fun code => decide (code ≠ 95) && (raster code).isNone) code = true) := by
          intro hbad
          have := List.filter_eq_nil_iff.mp hnf' code hmem
          exact this hbad
        simp only [Bool.not_eq_true, decide_not] at this
        simp [this, hcc]
    rw [hcongr, List.filter_beq]
    rw [hcount]
    rfl
  · -- pixels outside the failed padded cell match the clean run
    intro hout
    have h := renderFrom_agree ⟨cell_width, cell_height, padding, ascent, descent⟩ raster c ic
      (x, y) hout (charList first_char last_char include_box_drawing) 0
      (fun _ => 0) (fun _ => 0) [] [] rfl hfit hocc
    exact h.symm
  · -- pixels of the failed padded cell stay 0
    intro hin
    have hskip : ∀ j, j < (charList first_char last_char include_box_drawing).length →
        0 + j = ic →
        (charList first_char last_char include_box_drawing).getD j 0 ≠ 95 ∧
          (failAt raster c) ((charList first_char last_char include_box_drawing).getD j 0)
            = none := by
      intro j hj hjic
      have hj_ic : j = ic := by omega
      subst hj_ic
      rw [hat]
      exact ⟨hc95, by simp [failAt]⟩
    exact renderFrom_zero ⟨cell_width, cell_height, padding, ascent, descent⟩
      (failAt raster c) ic hcw hch hp (x, y) hin
      (charList first_char last_char include_box_drawing) 0 (fun _ => 0) [] rfl
      (allFitFrom_failAt ⟨cell_width, cell_height, padding, ascent, descent⟩ raster c
        (charList first_char last_char include_box_drawing) 0 hfit) hskip

/-- C5 witness: a two-glyph run (codepoints 32 and 33) in 1×1 cells with an
empty-ink rasterizer, where codepoint 33 (atlas index 1) fails. -/
theorem C5_failure_isolated_witness :
    (generate_font_atlas (some ((1 : Int), (0 : Int))) "f" "o.png" 1 1 none 32 33 false 0
        (failAt (fun _ => some ⟨0, 0, []⟩) 33)).success = true
    ∧ mainExitOf (generate_font_atlas (some ((1 : Int), (0 : Int))) "f" "o.png" 1 1 none 32 33
        false 0 (failAt (fun _ => some ⟨0, 0, []⟩) 33)) = 0
    ∧ (generateCore 1 0 "f" "o.png" 1 1 none 32 33 false 0
        (failAt (fun _ => some ⟨0, 0, []⟩) 33)).log = [33]
    ∧ (inPaddedCell ⟨1, 1, 0, 1, 0⟩ 1 (0, 0) = false →
        (generateCore 1 0 "f" "o.png" 1 1 none 32 33 false 0
          (failAt (fun _ => some ⟨0, 0, []⟩) 33)).atlas (0, 0)
          = (generateCore 1 0 "f" "o.png" 1 1 none 32 33 false 0
              (fun _ => some ⟨0, 0, []⟩)).atlas (0, 0))
    ∧ (inPaddedCell ⟨1, 1, 0, 1, 0⟩ 1 (0, 0) = true →
        (generateCore 1 0 "f" "o.png" 1 1 none 32 33 false 0
          (failAt (fun _ => some ⟨0, 0, []⟩) 33)).atlas (0, 0) = 0) :=
  C5_failure_isolated 1 0 1 1 0 "f" "o.png" none 32 33 false
    (fun _ => some ⟨0, 0, []⟩) 33 1 0 0 (by decide) (by decide) (by decide) (by decide)
    (by decide) (by decide) (by decide) (by rfl)

/-- C6.  `main` exits 0 on success; when the font file does not exist it
prints the usage message, exits 1 and creates no files; when font loading
fails for any other reason it exits 1 with no output files. -/
theorem C6_exit_codes (arg1 arg2 : Option String) (arg3 arg4 arg5 arg6 : Option Int)
    (fontExists : Bool) (font : Option (Int × Int)) (raster : Raster) :
    (fontExists = false →
        (mainRun arg1 arg2 arg3 arg4 arg5 arg6 fontExists font raster).exit = 1
        ∧ (mainRun arg1 arg2 arg3 arg4 arg5 arg6 fontExists font raster).usagePrinted = true
        ∧ writtenFiles (mainRun arg1 arg2 arg3 arg4 arg5 arg6 fontExists font raster).gen = [])
    ∧ (fontExists = true → font = none →
        (mainRun arg1 arg2 arg3 arg4 arg5 arg6 fontExists font raster).exit = 1
        ∧ (mainRun arg1 arg2 arg3 arg4 arg5 arg6 fontExists font raster).usagePrinted = false
        ∧ writtenFiles (mainRun arg1 arg2 arg3 arg4 arg5 arg6 fontExists font raster).gen = [])
    ∧ (fontExists = true → font.isSome = true →
        (mainRun arg1 arg2 arg3 arg4 arg5 arg6 fontExists font raster).exit = 0) := by
  refine ⟨?_, ?_, ?_⟩
  · intro h
    subst h
    exact ⟨rfl, rfl, rfl⟩
  · intro h hfont
    subst h
    subst hfont
    exact ⟨rfl, rfl, rfl⟩
  · intro h hfont
    subst h
    match font, hfont with
    | some (ascent, descent), _ => rfl

/-- C7 (counterexample to the claim as stated).  With `cellWidth = 0` the
tool does not fail fast: the run proceeds with layout and succeeds — there is
no `InvalidGeometry` check anywhere in the code.  The atlas width 32 shows
layout was carried out (`next_power_of_2 (16 * (0 + 1*2)) = 32`). -/
theorem C7_no_geometry_validation_cex :
    (generate_font_atlas (some ((8 : Int), (2 : Int))) "f.ttf" "font_atlas.png" 0 0 none
        32 126 true 1 (fun _ => some ⟨0, 0, []⟩)).success = true
    ∧ (generateCore 8 2 "f.ttf" "font_atlas.png" 0 0 none 32 126 true 1
        (fun _ => some ⟨0, 0, []⟩)).atlasW = 32 := by
  constructor
  · rfl
  · show next_power_of_2 (16 * (0 + 1 * 2)) = 32
    rfl

/-- C7 (amended).  The code performs no `cellWidth`/`cellHeight`
validation: for every geometry, including `cellWidth ≤ 0` or
`cellHeight ≤ 0`, `generate_font_atlas` proceeds with layout and returns
success once the font has loaded. -/
theorem C7_no_geometry_validation (ascent descent cell_width cell_height padding : Int)
    (font_path output_path : String) (font_size : Option Int)
    (first_char last_char : Nat) (include_box_drawing : Bool) (raster : Raster) :
    (generate_font_atlas (some (ascent, descent)) font_path output_path cell_width
        cell_height font_size first_char last_char include_box_drawing padding
        raster).success = true
    ∧ (generate_font_atlas (some (ascent, descent)) font_path output_path cell_width
        cell_height font_size first_char last_char include_box_drawing padding raster).data
      = some (generateCore ascent descent font_path output_path cell_width cell_height
          font_size first_char last_char include_box_drawing padding raster) :=
  ⟨rfl, rfl⟩

/-! ## The metadata path (C9) -/

/-- When the pattern does not occur, `replace` is the identity, no matter
the fuel. -/
lemma replace_id (pat rep : List Char) :
    ∀ (fuel : Nat) (s : List Char), hasOccurB s pat = false →
      replaceFuel fuel s pat rep = s := by
  intro fuel
  induction fuel with
  | zero =>
    intro s _
    rfl
  | succ fuel ih =>
    intro s hocc
    match s with
    | [] => rfl
    | c :: rest =>
      simp only [hasOccurB, Bool.or_eq_false_iff] at hocc
      simp [replaceFuel, hocc.1, ih rest hocc.2]

/-- Replacing with a pattern no longer than the replacement never shrinks
the string. -/
lemma replace_len_ge (pat rep : List Char) (hlen : pat.length ≤ rep.length) :
    ∀ (fuel : Nat) (s : List Char),
      s.length ≤ (replaceFuel fuel s pat rep).length := by
  intro fuel
  induction fuel with
  | zero =>
    intro s
    exact Nat.le_refl _
  | succ fuel ih =>
    intro s
    match s with
    | [] => simp [replaceFuel]
    | c :: rest =>
      by_cases hcond : (!pat.isEmpty && pat.isPrefixOf (c :: rest)) = true
      · have hpre : pat.isPrefixOf (c :: rest) = true := by
          simp only [Bool.and_eq_true] at hcond
          exact hcond.2
        have hple : pat.length ≤ (c :: rest).length :=
          (List.isPrefixOf_iff_prefix.mp hpre).length_le
        simp only [replaceFuel]
        rw [if_pos hcond]
        simp only [List.length_append]
        have h2 := ih ((c :: rest).drop pat.length)
        rw [List.length_drop] at h2
        have hsub := Nat.sub_add_cancel hple
        omega
      · simp only [replaceFuel]
        rw [if_neg hcond]
        simp only [List.length_cons]
        have := ih rest
        omega

/-- Replacing a strictly shorter pattern that does occur strictly grows the
string (with enough fuel). -/
lemma replace_len_gt (pat rep : List Char) (hne : pat ≠ []) (hlen : pat.length < rep.length) :
    ∀ (fuel : Nat) (s : List Char), s.length ≤ fuel → hasOccurB s pat = true →
      s.length < (replaceFuel fuel s pat rep).length := by
  have hempty : pat.isPrefixOf ([] : List Char) = false := by
    match pat, hne with
    | p :: ps, _ => rfl
  intro fuel
  induction fuel with
  | zero =>
    intro s hs hocc
    have hnil : s = [] := List.length_eq_zero.mp (Nat.le_zero.mp hs)
    subst hnil
    rw [show hasOccurB [] pat = pat.isPrefixOf [] from rfl, hempty] at hocc
    exact absurd hocc (by simp)
  | succ fuel ih =>
    intro s hs hocc
    match s with
    | [] =>
      rw [show hasOccurB [] pat = pat.isPrefixOf [] from rfl, hempty] at hocc
      exact absurd hocc (by simp)
    | c :: rest =>
      by_cases hcond : (!pat.isEmpty && pat.isPrefixOf (c :: rest)) = true
      · have hpre : pat.isPrefixOf (c :: rest) = true := by
          simp only [Bool.and_eq_true] at hcond
          exact hcond.2
        have hple : pat.length ≤ (c :: rest).length :=
          (List.isPrefixOf_iff_prefix.mp hpre).length_le
        simp only [replaceFuel]
        rw [if_pos hcond]
        simp only [List.length_append]
        have h2 := replace_len_ge pat rep (Nat.le_of_lt hlen) fuel ((c :: rest).drop pat.length)
        rw [List.length_drop] at h2
        have hsub := Nat.sub_add_cancel hple
        omega
      · have hpre : pat.isPrefixOf (c :: rest) = false := by
          by_contra hb
          rw [Bool.not_eq_false] at hb
          apply hcond
          rw [hb]
          match pat, hne with
          | p :: ps, _ => rfl
        have hrest : hasOccurB rest pat = true := by
          rw [show hasOccurB (c :: rest) pat
              = (pat.isPrefixOf (c :: rest) || hasOccurB rest pat) from rfl, hpre] at hocc
          simpa using hocc
        simp only [replaceFuel]
        rw [if_neg hcond]
        simp only [List.length_cons]
        have hs' : rest.length ≤ fuel := by
          simp only [List.length_cons] at hs
          omega
        have := ih rest hs' hrest
        omega

/-- C9 (counterexample to the claim as stated).  For
`outputPath = "font_atlas.bmp"` — which contains no `".png"` —
`output_path.replace(".png", "_metadata.h")` is the identity, so the
metadata path equals the image path and the metadata write overwrites the
atlas image. -/
theorem C9_metadata_path_cex :
    (generateCore 8 2 "f.ttf" "font_atlas.bmp" 16 16 none 32 126 true 1
        (fun _ => none)).headerPath = "font_atlas.bmp"
    ∧ (generateCore 8 2 "f.ttf" "font_atlas.bmp" 16 16 none 32 126 true 1
        (fun _ => none)).headerPath
      = (generateCore 8 2 "f.ttf" "font_atlas.bmp" 16 16 none 32 126 true 1
          (fun _ => none)).outPath := by
  constructor
  · rfl
  · rfl

/-- C9 (amended).  The metadata description is written to the path obtained
by replacing every occurrence of `".png"` in `outputPath` with
`"_metadata.h"`.  That path is distinct from the image path whenever
`".png"` occurs in `outputPath` (in particular for the default
`"font_atlas.png"`), but when `".png"` does not occur at all the derived
path equals the image path itself, and the metadata file overwrites the
atlas image. -/
theorem C9_metadata_path (output_path font_path : String)
    (ascent descent cell_width cell_height padding : Int) (font_size : Option Int)
    (first_char last_char : Nat) (include_box_drawing : Bool) (raster : Raster) :
    (generateCore ascent descent font_path output_path cell_width cell_height font_size
        first_char last_char include_box_drawing padding raster).headerPath
      = header_path_of output_path
    ∧ header_path_of output_path = pyReplace output_path ".png" "_metadata.h"
    ∧ (hasOccurB output_path.toList ".png".toList = false →
        header_path_of output_path = output_path)
    ∧ (hasOccurB output_path.toList ".png".toList = true →
        header_path_of output_path ≠ output_path)
    ∧ header_path_of "font_atlas.png" = "font_atlas_metadata.h" := by
  refine ⟨rfl, rfl, ?_, ?_, by rfl⟩
  · intro hocc
    show String.mk (replaceFuel output_path.toList.length output_path.toList
      ".png".toList "_metadata.h".toList) = output_path
    rw [replace_id _ _ _ _ hocc]
    rfl
  · intro hocc heq
    have hdata : replaceFuel output_path.toList.length output_path.toList
        ".png".toList "_metadata.h".toList = output_path.toList :=
      congrArg String.toList heq
    have hgt := replace_len_gt ".png".toList "_metadata.h".toList (by decide) (by decide)
      output_path.toList.length output_path.toList (Nat.le_refl _) hocc
    rw [hdata] at hgt
    omega

/-- C9 witness: the default output path, which does contain `".png"`. -/
theorem C9_metadata_path_witness :
    (generateCore 8 2 "f.ttf" "font_atlas.png" 16 16 none 32 126 true 1
        (fun _ => none)).headerPath = header_path_of "font_atlas.png"
    ∧ header_path_of "font_atlas.png" = pyReplace "font_atlas.png" ".png" "_metadata.h"
    ∧ (hasOccurB "font_atlas.png".toList ".png".toList = false →
        header_path_of "font_atlas.png" = "font_atlas.png")
    ∧ (hasOccurB "font_atlas.png".toList ".png".toList = true →
        header_path_of "font_atlas.png" ≠ "font_atlas.png")
    ∧ header_path_of "font_atlas.png" = "font_atlas_metadata.h" :=
  C9_metadata_path "font_atlas.png" "f.ttf" 8 2 16 16 1 none 32 126 true (fun _ => none)

/-! ## Determinism (C8) and the fixed CLI codepoint set (C10) -/

/-- C8.  The run is a pure function of its inputs: two runs with the same
font-load result, paths, cell dimensions, font size, padding and rasterizer
produce identical outputs — the same `GenOut` (hence byte-identical atlas
pixels and metadata), the same written files.  In this embedding every
external effect is an explicit input, so determinism is by construction. -/
theorem C8_deterministic (font font' : Option (Int × Int)) (fp fp' op op' : String)
    (cw cw' ch ch' p p' : Int) (fs fs' : Option Int) (raster raster' : Raster) (x y : Int)
    (h1 : font = font') (h2 : fp = fp') (h3 : op = op') (h4 : cw = cw') (h5 : ch = ch')
    (h6 : fs = fs') (h7 : p = p') (h8 : raster = raster') :
    generate_font_atlas font fp op cw ch fs 32 126 true p raster
        = generate_font_atlas font' fp' op' cw' ch' fs' 32 126 true p' raster'
    ∧ writtenFiles (generate_font_atlas font fp op cw ch fs 32 126 true p raster)
        = writtenFiles (generate_font_atlas font' fp' op' cw' ch' fs' 32 126 true p' raster')
    ∧ Option.map (fun d => d.atlas (x, y))
          (generate_font_atlas font fp op cw ch fs 32 126 true p raster).data
        = Option.map (fun d => d.atlas (x, y))
          (generate_font_atlas font' fp' op' cw' ch' fs' 32 126 true p' raster').data
    ∧ Option.map GenData.meta (generate_font_atlas font fp op cw ch fs 32 126 true p raster).data
        = Option.map GenData.meta
          (generate_font_atlas font' fp' op' cw' ch' fs' 32 126 true p' raster').data := by
  subst h1 h2 h3 h4 h5 h6 h7 h8
  exact ⟨rfl, rfl, rfl, rfl⟩

/-- C8 witness: two literally identical runs. -/
theorem C8_deterministic_witness :
    generate_font_atlas (some ((8 : Int), (2 : Int))) "f" "o.png" 16 16 none 32 126 true 1
        (fun _ => none)
      = generate_font_atlas (some ((8 : Int), (2 : Int))) "f" "o.png" 16 16 none 32 126
          true 1 (fun _ => none)
    ∧ writtenFiles (generate_font_atlas (some ((8 : Int), (2 : Int))) "f" "o.png" 16 16 none
          32 126 true 1 (fun _ => none))
      = writtenFiles (generate_font_atlas (some ((8 : Int), (2 : Int))) "f" "o.png" 16 16
          none 32 126 true 1 (fun _ => none))
    ∧ Option.map (fun d => d.atlas (0, 0))
          (generate_font_atlas (some ((8 : Int), (2 : Int))) "f" "o.png" 16 16 none 32 126
            true 1 (fun _ => none)).data
        = Option.map (fun d => d.atlas (0, 0))
          (generate_font_atlas (some ((8 : Int), (2 : Int))) "f" "o.png" 16 16 none 32 126
            true 1 (fun _ => none)).data
    ∧ Option.map GenData.meta
          (generate_font_atlas (some ((8 : Int), (2 : Int))) "f" "o.png" 16 16 none 32 126
            true 1 (fun _ => none)).data
        = Option.map GenData.meta
          (generate_font_atlas (some ((8 : Int), (2 : Int))) "f" "o.png" 16 16 none 32 126
            true 1 (fun _ => none)).data :=
  C8_deterministic (some (8, 2)) (some (8, 2)) "f" "f" "o.png" "o.png" 16 16 16 16 1 1
    none none (fun _ => none) (fun _ => none) 0 0 rfl rfl rfl rfl rfl rfl rfl rfl

/-- C10.  `main` never forwards `first_char`, `last_char` or
`include_box_drawing` from the command line: whatever the six positional
arguments are, the run always uses the ASCII range 32..126 plus the
box-drawing block (`include_box_drawing=True`), a codepoint set of 223. -/
theorem C10_cli_fixed_codepoint_set (arg1 arg2 : Option String)
    (arg3 arg4 arg5 arg6 : Option Int) (ascent descent : Int) (raster : Raster) :
    Option.map (fun d => (d.meta.firstChar, d.meta.lastChar, d.meta.includesBoxDrawing))
        (mainRun arg1 arg2 arg3 arg4 arg5 arg6 true (some (ascent, descent)) raster).gen.data
      = some (32, 126, true)
    ∧ Option.map GenData.codes
        (mainRun arg1 arg2 arg3 arg4 arg5 arg6 true (some (ascent, descent)) raster).gen.data
      = some (charList 32 126 true)
    ∧ (charList 32 126 true).length = 223 := by
  refine ⟨rfl, rfl, ?_⟩
  simp [charList]

end FontAtlas
